import Mathlib

/-!
Verification of the linearity-measurement core of the equipment-automation
repository (`src/lib/linearity_measurement.py`, `src/lib/oscilloscope.py`,
`src/signal_generator.py`).

The Python code is shallowly embedded:

* `polyfit1` / `calculate_intercept` embed
  `LinearityMeasurement.calculate_intercept`: `np.polyfit(x, y, 1)` computes the
  degree-1 least-squares fit, which for a nonsingular normal system is the
  closed form used here (proved below to minimise the residual sum of
  squares), followed by `-coefficients[1] / coefficients[0]`.  The embedding is
  generic over a linear ordered field so it can be evaluated exactly over `ℚ`
  and used over `ℝ` inside the sweep.
* `roundHalfEven` / `round5` / `linspace` / `sweepLevels` embed
  `np.round(np.linspace(start_voltage, stop_voltage, num), 5)` from
  `measure_iip2` (numpy rounds half to even).
* `dftAt` / `magAt` / `binFreq` / `nearestBin` /
  `calculate_second_order_product` embed
  `LinearityMeasurement.calculate_second_order_product`: the forward DFT,
  the retained non-negative half-spectrum with magnitudes divided by the
  retained length, the first-minimising-index lookup of `np.argmin`, and
  `10 * np.log10(max(power_sum, power_diff))`.  `np.argmin` of an empty array
  raises `ValueError`, so the embedding returns `none` when the retained
  half-spectrum is empty (waveform shorter than 2 samples).
* `Ev` / `sweepSteps` / `measure_iip2` embed the sweep loop of
  `LinearityMeasurement.measure_iip2` as a trace of instrument commands and
  printed lines, parametrised by a capture oracle standing for
  `Oscilloscope.get_waveform_data` (whose query/parse can raise).  A raised
  Python exception is an `Except.error` that aborts the remaining steps, as in
  the source, which has no `try`/`finally` around the loop body.
-/

/-- Error reported by the spec's intercept estimator for a degenerate
(zero-slope) fit.  No such error exists in the source code. -/
inductive FitErr
  | degenerate
  deriving DecidableEq

/-- Sum of pairwise products, `Σ xᵢ·yᵢ` (the `Σ x·y` moment used by the
least-squares closed form behind `np.polyfit(x, y, 1)`). -/
def sumXY {K : Type} [LinearOrderedField K] (xs ys : List K) : K :=
  (List.zipWith (· * ·) xs ys).sum

/-- Sum of squares, `Σ xᵢ²`. -/
def sumSq {K : Type} [LinearOrderedField K] (xs : List K) : K :=
  (List.zipWith (· * ·) xs xs).sum

/-- Numerator of the least-squares slope: `n·Σxy − Σx·Σy`. -/
def fitSlopeNum {K : Type} [LinearOrderedField K] (xs ys : List K) : K :=
  (xs.length : K) * sumXY xs ys - xs.sum * ys.sum

/-- Denominator of the least-squares slope: `n·Σx² − (Σx)²`. -/
def fitDenom {K : Type} [LinearOrderedField K] (xs : List K) : K :=
  (xs.length : K) * sumSq xs - xs.sum ^ 2

/-- Embedding of `np.polyfit(input_voltages, products, 1)` from
`LinearityMeasurement.calculate_intercept`: the ordinary least-squares
coefficients `(a, b)` of `products ≈ a·input_voltages + b`, in closed form
(`a = (n·Σxy − Σx·Σy)/(n·Σx² − (Σx)²)`, `b = (Σy − a·Σx)/n`). -/
def polyfit1 {K : Type} [LinearOrderedField K] (xs ys : List K) : K × K :=
  (fitSlopeNum xs ys / fitDenom xs,
   (ys.sum - fitSlopeNum xs ys / fitDenom xs * xs.sum) / (xs.length : K))

/-- Embedding of `LinearityMeasurement.calculate_intercept`: fit a line and
return `-coefficients[1] / coefficients[0]`, i.e. `-b/a`, with no check on
the slope `a`. -/
def calculate_intercept {K : Type} [LinearOrderedField K] (xs ys : List K) : K :=
  -(polyfit1 xs ys).2 / (polyfit1 xs ys).1

/-- Residual sum of squares of the line `y = a·x + b` over the data. -/
def rss {K : Type} [LinearOrderedField K] (xs ys : List K) (a b : K) : K :=
  (List.zipWith (fun x y => (y - (a * x + b)) ^ 2) xs ys).sum

/-- Modelled from the spec: the spec's Intercept Estimator (`estimate_intercept`,
section 4.3) demands that a slope within a small tolerance of zero be reported
as a distinct `DegenerateFitError` instead of being divided; over exact
arithmetic the tolerance is taken as exact zero.  This checked variant is
absent from `src/lib/linearity_measurement.py` and exists only for comparison
with `calculate_intercept`. -/
def estimate_intercept_specModel (xs ys : List ℚ) : Except FitErr ℚ :=
  if (polyfit1 xs ys).1 = 0 then Except.error FitErr.degenerate
  else Except.ok (-(polyfit1 xs ys).2 / (polyfit1 xs ys).1)

/-- A zipped-product sum over two lists of equal length is the corresponding
indexed sum. -/
lemma zipWith_sum_eq {K : Type} [LinearOrderedField K] (f : K → K → K) :
    ∀ (xs ys : List K), xs.length = ys.length →
      (List.zipWith f xs ys).sum =
        ∑ i in Finset.range xs.length, f (xs.getD i 0) (ys.getD i 0)
  | [], [], _ => by simp
  | [], y :: ys, h => by simp at h
  | x :: xs, [], h => by simp at h
  | x :: xs, y :: ys, h => by
      have ih := zipWith_sum_eq f xs ys (by simpa using h)
      rw [List.zipWith_cons_cons, List.sum_cons, ih, List.length_cons,
        Finset.sum_range_succ']
      simp [add_comm]

/-- A list sum is the corresponding indexed sum. -/
lemma list_sum_eq {K : Type} [LinearOrderedField K] :
    ∀ (xs : List K), xs.sum = ∑ i in Finset.range xs.length, xs.getD i 0
  | [] => by simp
  | x :: xs => by
      rw [List.sum_cons, list_sum_eq xs, List.length_cons, Finset.sum_range_succ']
      simp [add_comm]

/-- The moment `sumXY` as an indexed sum. -/
lemma sumXY_eq {K : Type} [LinearOrderedField K] (xs ys : List K)
    (hlen : xs.length = ys.length) :
    sumXY xs ys = ∑ i in Finset.range xs.length, xs.getD i 0 * ys.getD i 0 := by
  simpa [sumXY] using zipWith_sum_eq (· * ·) xs ys hlen

/-- The moment `sumSq` as an indexed sum. -/
lemma sumSq_eq {K : Type} [LinearOrderedField K] (xs : List K) :
    sumSq xs = ∑ i in Finset.range xs.length, xs.getD i 0 * xs.getD i 0 := by
  simpa [sumSq] using zipWith_sum_eq (· * ·) xs xs rfl

/-- The residual sum of squares as an indexed sum. -/
lemma rss_eq {K : Type} [LinearOrderedField K] (xs ys : List K) (a b : K)
    (hlen : xs.length = ys.length) :
    rss xs ys a b =
      ∑ i in Finset.range xs.length, (ys.getD i 0 - (a * xs.getD i 0 + b)) ^ 2 := by
  simpa [rss] using zipWith_sum_eq (fun x y => (y - (a * x + b)) ^ 2) xs ys hlen

/-- First normal equation: the fitted residuals of `polyfit1` sum to zero. -/
lemma sum_residual_eq_zero {K : Type} [LinearOrderedField K] (xs ys : List K)
    (hlen : xs.length = ys.length) (hn : (xs.length : K) ≠ 0) :
    ∑ i in Finset.range xs.length,
      (ys.getD i 0 - ((polyfit1 xs ys).1 * xs.getD i 0 + (polyfit1 xs ys).2)) = 0 := by
  have hSy : ys.sum = ∑ i in Finset.range xs.length, ys.getD i 0 := by
    rw [list_sum_eq ys, hlen]
  have hexp : ∑ i in Finset.range xs.length,
      (ys.getD i 0 - ((polyfit1 xs ys).1 * xs.getD i 0 + (polyfit1 xs ys).2))
      = ys.sum - (polyfit1 xs ys).1 * xs.sum
        - (xs.length : K) * (polyfit1 xs ys).2 := by
    rw [Finset.sum_sub_distrib, Finset.sum_add_distrib, ← Finset.mul_sum,
      Finset.sum_const, Finset.card_range, ← list_sum_eq xs, ← hSy]
    ring
  have hB : (polyfit1 xs ys).2
      = (ys.sum - (polyfit1 xs ys).1 * xs.sum) / (xs.length : K) := rfl
  rw [hexp, hB]
  field_simp

/-- Second normal equation: the fitted residuals of `polyfit1` are orthogonal
to the regressor. -/
lemma sum_x_residual_eq_zero {K : Type} [LinearOrderedField K] (xs ys : List K)
    (hlen : xs.length = ys.length) (hn : (xs.length : K) ≠ 0)
    (hD : fitDenom xs ≠ 0) :
    ∑ i in Finset.range xs.length,
      xs.getD i 0 *
        (ys.getD i 0 - ((polyfit1 xs ys).1 * xs.getD i 0 + (polyfit1 xs ys).2)) = 0 := by
  have hSy : ys.sum = ∑ i in Finset.range xs.length, ys.getD i 0 := by
    rw [list_sum_eq ys, hlen]
  have hexp : ∑ i in Finset.range xs.length,
      xs.getD i 0 *
        (ys.getD i 0 - ((polyfit1 xs ys).1 * xs.getD i 0 + (polyfit1 xs ys).2))
      = sumXY xs ys - (polyfit1 xs ys).1 * sumSq xs
        - (polyfit1 xs ys).2 * xs.sum := by
    have h1 : ∀ i ∈ Finset.range xs.length,
        xs.getD i 0 *
          (ys.getD i 0 - ((polyfit1 xs ys).1 * xs.getD i 0 + (polyfit1 xs ys).2))
        = xs.getD i 0 * ys.getD i 0
          - (polyfit1 xs ys).1 * (xs.getD i 0 * xs.getD i 0)
          - (polyfit1 xs ys).2 * xs.getD i 0 := fun i _ => by ring
    rw [Finset.sum_congr rfl h1, Finset.sum_sub_distrib, Finset.sum_sub_distrib,
      ← Finset.mul_sum, ← Finset.mul_sum, ← sumXY_eq xs ys hlen, ← sumSq_eq xs,
      ← list_sum_eq xs]
  have hA : (polyfit1 xs ys).1 = fitSlopeNum xs ys / fitDenom xs := rfl
  have hB : (polyfit1 xs ys).2
      = (ys.sum - fitSlopeNum xs ys / fitDenom xs * xs.sum) / (xs.length : K) := rfl
  have hD' : (xs.length : K) * sumSq xs - xs.sum ^ 2 ≠ 0 := by
    simpa [fitDenom] using hD
  rw [hexp, hA, hB, fitSlopeNum, fitDenom]
  field_simp [hD']
  ring

/-- Decomposition of the residual sum of squares of an arbitrary line into
the fitted residual sum of `polyfit1` plus a sum of squared deviations. -/
lemma rss_decomposition {K : Type} [LinearOrderedField K] (xs ys : List K)
    (a b : K) (hlen : xs.length = ys.length) (hn : (xs.length : K) ≠ 0)
    (hD : fitDenom xs ≠ 0) :
    rss xs ys a b
      = rss xs ys (polyfit1 xs ys).1 (polyfit1 xs ys).2
        + ∑ i in Finset.range xs.length,
            (((polyfit1 xs ys).1 - a) * xs.getD i 0 + ((polyfit1 xs ys).2 - b)) ^ 2 := by
  have hr := sum_residual_eq_zero xs ys hlen hn
  have hxr := sum_x_residual_eq_zero xs ys hlen hn hD
  rw [rss_eq xs ys a b hlen, rss_eq xs ys _ _ hlen]
  have hpt : ∀ i ∈ Finset.range xs.length,
      (ys.getD i 0 - (a * xs.getD i 0 + b)) ^ 2
      = (ys.getD i 0 - ((polyfit1 xs ys).1 * xs.getD i 0 + (polyfit1 xs ys).2)) ^ 2
        + ((2 * ((polyfit1 xs ys).1 - a))
            * (xs.getD i 0 *
                (ys.getD i 0 - ((polyfit1 xs ys).1 * xs.getD i 0 + (polyfit1 xs ys).2)))
          + (2 * ((polyfit1 xs ys).2 - b))
            * (ys.getD i 0 - ((polyfit1 xs ys).1 * xs.getD i 0 + (polyfit1 xs ys).2))
          + (((polyfit1 xs ys).1 - a) * xs.getD i 0 + ((polyfit1 xs ys).2 - b)) ^ 2) :=
    fun i _ => by ring
  rw [Finset.sum_congr rfl hpt, Finset.sum_add_distrib, Finset.sum_add_distrib,
    Finset.sum_add_distrib, ← Finset.mul_sum, ← Finset.mul_sum, hr, hxr]
  ring

/-- Pairing a list against a constant list sums to the constant times the sum. -/
lemma sumXY_replicate {K : Type} [LinearOrderedField K] (c : K) :
    ∀ (xs : List K), sumXY xs (List.replicate xs.length c) = c * xs.sum
  | [] => by simp [sumXY]
  | x :: xs => by
      have ih := sumXY_replicate c xs
      simp only [List.length_cons, List.replicate_succ, sumXY,
        List.zipWith_cons_cons, List.sum_cons] at ih ⊢
      rw [ih]
      ring

/-- C5: `calculate_intercept` fits `powers ≈ a·levels + b` by ordinary least
squares — the coefficients `polyfit1` produce minimise the residual sum of
squares among all lines — and returns `-b/a`; on levels `[1,2,3,4]` with
powers generated exactly by `power = 3·level − 12` it returns `4`. -/
theorem C5_least_squares_intercept :
    (∀ (K : Type) [LinearOrderedField K], ∀ (xs ys : List K) (a b : K),
      xs.length = ys.length → 2 ≤ xs.length → fitDenom xs ≠ 0 →
        rss xs ys (polyfit1 xs ys).1 (polyfit1 xs ys).2 ≤ rss xs ys a b ∧
        calculate_intercept xs ys = -(polyfit1 xs ys).2 / (polyfit1 xs ys).1) ∧
    calculate_intercept (K := ℚ) [1, 2, 3, 4] [-9, -6, -3, 0] = 4 := by
  constructor
  · intro K _ xs ys a b hlen h2 hD
    have hn : (xs.length : K) ≠ 0 := by
      have : xs.length ≠ 0 := by omega
      exact_mod_cast Nat.cast_ne_zero.mpr this
    refine ⟨?_, rfl⟩
    rw [rss_decomposition xs ys a b hlen hn hD]
    have hnonneg : 0 ≤ ∑ i in Finset.range xs.length,
        (((polyfit1 xs ys).1 - a) * xs.getD i 0 + ((polyfit1 xs ys).2 - b)) ^ 2 :=
      Finset.sum_nonneg fun i _ => sq_nonneg _
    linarith
  · norm_num [calculate_intercept, polyfit1, fitSlopeNum, fitDenom, sumXY, sumSq]

/-- Witness for C5 at a concrete input: the fitted line on
`[1,2,3,4] ↦ [-9,-6,-3,0]` beats the line `y = 0·x + 0`, and the returned
intercept is `-b/a`. -/
theorem C5_least_squares_intercept_witness :
    rss (K := ℚ) [1, 2, 3, 4] [-9, -6, -3, 0]
        (polyfit1 [1, 2, 3, 4] [-9, -6, -3, 0]).1
        (polyfit1 [1, 2, 3, 4] [-9, -6, -3, 0]).2
      ≤ rss [1, 2, 3, 4] [-9, -6, -3, 0] 0 0 ∧
    calculate_intercept (K := ℚ) [1, 2, 3, 4] [-9, -6, -3, 0]
      = -(polyfit1 [1, 2, 3, 4] [-9, -6, -3, 0]).2
          / (polyfit1 [1, 2, 3, 4] [-9, -6, -3, 0]).1 :=
  C5_least_squares_intercept.1 ℚ [1, 2, 3, 4] [-9, -6, -3, 0] 0 0
    (by decide) (by decide) (by norm_num [fitDenom, sumSq])

/-- C3 counterexample: on levels `[1,2]` with constant powers `[5,5]` the
spec-modelled estimator reports the degenerate fit, but the source's
`calculate_intercept` performs no slope check: the fitted slope is `0` and the
function still returns the unguarded quotient `-b/a = -5/0` (an infinite value
in the floating-point source; `0` under the embedding's division convention). -/
theorem C3_counterexample :
    estimate_intercept_specModel [1, 2] [5, 5] = Except.error FitErr.degenerate ∧
    (polyfit1 (K := ℚ) [1, 2] [5, 5]).1 = 0 ∧
    calculate_intercept (K := ℚ) [1, 2] [5, 5] = -5 / 0 := by
  have h1 : (polyfit1 (K := ℚ) [1, 2] [5, 5]).1 = 0 := by
    norm_num [polyfit1, fitSlopeNum, fitDenom, sumXY, sumSq]
  refine ⟨?_, h1, ?_⟩
  · simp [estimate_intercept_specModel, h1]
  · rw [calculate_intercept, h1]
    norm_num

/-- C3 amended: `calculate_intercept` detects no degenerate fit.  For powers
constant across the levels the fitted coefficients are exactly `(0, c)` and
the function returns the unguarded division `-c/0` instead of any error. -/
theorem C3_no_degenerate_detection {K : Type} [LinearOrderedField K]
    (xs : List K) (c : K) (h2 : 2 ≤ xs.length) :
    polyfit1 xs (List.replicate xs.length c) = (0, c) ∧
    calculate_intercept xs (List.replicate xs.length c) = -c / 0 := by
  have hn : (xs.length : K) ≠ 0 := by
    have : xs.length ≠ 0 := by omega
    exact_mod_cast Nat.cast_ne_zero.mpr this
  have hsum : (List.replicate xs.length c).sum = (xs.length : K) * c := by
    rw [List.sum_replicate, nsmul_eq_mul]
  have hnum : fitSlopeNum xs (List.replicate xs.length c) = 0 := by
    rw [fitSlopeNum, sumXY_replicate, hsum]
    ring
  have hfit : polyfit1 xs (List.replicate xs.length c) = (0, c) := by
    rw [polyfit1, hnum, hsum]
    rw [zero_div]
    field_simp
  refine ⟨hfit, ?_⟩
  rw [calculate_intercept, hfit]

/-- Witness for the amended C3 at a concrete input. -/
theorem C3_no_degenerate_detection_witness :
    polyfit1 (K := ℚ) [1, 2] (List.replicate ([1, 2] : List ℚ).length 5) = (0, 5) ∧
    calculate_intercept (K := ℚ) [1, 2] (List.replicate ([1, 2] : List ℚ).length 5)
      = -5 / 0 :=
  C3_no_degenerate_detection [1, 2] 5 (by decide)

/-- Embedding of numpy rounding to integer (`np.round` rounds half to even). -/
def roundHalfEven (x : ℚ) : ℤ :=
  if x - ⌊x⌋ < 1/2 then ⌊x⌋
  else if 1/2 < x - ⌊x⌋ then ⌊x⌋ + 1
  else if ⌊x⌋ % 2 = 0 then ⌊x⌋ else ⌊x⌋ + 1

/-- Embedding of `np.round(·, 5)`: round half-to-even at the fifth decimal. -/
def round5 (x : ℚ) : ℚ := (roundHalfEven (x * 100000) : ℚ) / 100000

/-- Embedding of `np.linspace(start, stop, num)`: `num` evenly spaced values
with both endpoints included (a single `[start]` when `num = 1`, empty when
`num = 0`). -/
def linspace (s e : ℚ) (n : ℕ) : List ℚ :=
  if n = 0 then []
  else if n = 1 then [s]
  else (List.range n).map (fun (i : ℕ) => s + (i : ℚ) * (e - s) / ((n : ℚ) - 1))

/-- Embedding of line 35 of `measure_iip2`:
`np.round(np.linspace(start_voltage, stop_voltage, num), 5)`. -/
def sweepLevels (s e : ℚ) (n : ℕ) : List ℚ := (linspace s e n).map round5

/-- Half-to-even rounding is at least the floor. -/
lemma roundHalfEven_ge (x : ℚ) : ⌊x⌋ ≤ roundHalfEven x := by
  unfold roundHalfEven
  split_ifs <;> omega

/-- Half-to-even rounding is at most the floor plus one. -/
lemma roundHalfEven_le (x : ℚ) : roundHalfEven x ≤ ⌊x⌋ + 1 := by
  unfold roundHalfEven
  split_ifs <;> omega

/-- Half-to-even rounding is monotone. -/
lemma roundHalfEven_mono {x y : ℚ} (h : x ≤ y) :
    roundHalfEven x ≤ roundHalfEven y := by
  have hf : ⌊x⌋ ≤ ⌊y⌋ := Int.floor_le_floor h
  rcases eq_or_lt_of_le hf with heq | hlt
  · have hq : (⌊x⌋ : ℚ) = (⌊y⌋ : ℚ) := by exact_mod_cast heq
    unfold roundHalfEven
    split_ifs <;> first | omega | linarith
  · calc roundHalfEven x ≤ ⌊x⌋ + 1 := roundHalfEven_le x
      _ ≤ ⌊y⌋ := by omega
      _ ≤ roundHalfEven y := roundHalfEven_ge y

/-- Half-to-even rounding is strictly monotone across a gap wider than one. -/
lemma roundHalfEven_strict {x y : ℚ} (h : x + 1 < y) :
    roundHalfEven x < roundHalfEven y := by
  have hfl : ⌊x⌋ + 1 ≤ ⌊y⌋ := by
    have h1 : ⌊x + 1⌋ ≤ ⌊y⌋ := Int.floor_le_floor h.le
    simpa [Int.floor_add_one] using h1
  rcases eq_or_lt_of_le hfl with heq | hlt
  · have hq : (⌊y⌋ : ℚ) = (⌊x⌋ : ℚ) + 1 := by exact_mod_cast heq.symm
    unfold roundHalfEven
    split_ifs <;> first | omega | linarith
  · calc roundHalfEven x ≤ ⌊x⌋ + 1 := roundHalfEven_le x
      _ < ⌊y⌋ := hlt
      _ ≤ roundHalfEven y := roundHalfEven_ge y

/-- Rounding at the fifth decimal is monotone. -/
lemma round5_mono {x y : ℚ} (h : x ≤ y) : round5 x ≤ round5 y := by
  have h1 : roundHalfEven (x * 100000) ≤ roundHalfEven (y * 100000) :=
    roundHalfEven_mono (by linarith)
  have h2 : ((roundHalfEven (x * 100000) : ℤ) : ℚ)
      ≤ ((roundHalfEven (y * 100000) : ℤ) : ℚ) := by exact_mod_cast h1
  unfold round5
  exact (div_le_div_iff_of_pos_right (by norm_num)).mpr h2

/-- Rounding at the fifth decimal is strictly monotone across a gap wider
than `10⁻⁵`. -/
lemma round5_strict {x y : ℚ} (h : 1 / 100000 < y - x) : round5 x < round5 y := by
  have h1 : roundHalfEven (x * 100000) < roundHalfEven (y * 100000) :=
    roundHalfEven_strict (by linarith)
  have h2 : ((roundHalfEven (x * 100000) : ℤ) : ℚ)
      < ((roundHalfEven (y * 100000) : ℤ) : ℚ) := by exact_mod_cast h1
  unfold round5
  exact (div_lt_div_iff_of_pos_right (by norm_num)).mpr h2

/-- The embedded linspace always produces exactly `n` values. -/
lemma linspace_length (s e : ℚ) (n : ℕ) : (linspace s e n).length = n := by
  unfold linspace
  split_ifs with h1 h2
  · simp [h1]
  · simp [h2]
  · rw [List.length_map, List.length_range]

/-- The sweep level list always has exactly `n` entries. -/
lemma sweepLevels_length (s e : ℚ) (n : ℕ) : (sweepLevels s e n).length = n := by
  simp [sweepLevels, linspace_length]

/-- For `start ≤ stop` the rounded sweep levels are nondecreasing. -/
lemma sweepLevels_pairwise_le (s e : ℚ) (n : ℕ) (hse : s ≤ e) :
    (sweepLevels s e n).Pairwise (· ≤ ·) := by
  unfold sweepLevels linspace
  split_ifs with h1 h2
  · simp
  · simp
  · rw [List.map_map, List.pairwise_map]
    refine (List.pairwise_lt_range n).imp ?_
    intro i j hij
    simp only [Function.comp]
    apply round5_mono
    have hij' : (i : ℚ) ≤ (j : ℚ) := by exact_mod_cast hij.le
    have hn2 : 2 ≤ n := by omega
    have hden : (0 : ℚ) ≤ (n : ℚ) - 1 := by
      have : (2 : ℚ) ≤ (n : ℚ) := by exact_mod_cast hn2
      linarith
    have hstep : 0 ≤ (e - s) / ((n : ℚ) - 1) := div_nonneg (by linarith) hden
    have hmul : (i : ℚ) * ((e - s) / ((n : ℚ) - 1))
        ≤ (j : ℚ) * ((e - s) / ((n : ℚ) - 1)) :=
      mul_le_mul_of_nonneg_right hij' hstep
    rw [mul_div_assoc, mul_div_assoc] at *
    linarith

/-- When the requested spacing exceeds the rounding quantum `10⁻⁵`, the
rounded sweep levels are strictly increasing. -/
lemma sweepLevels_pairwise_lt (s e : ℚ) (n : ℕ) (hn2 : 2 ≤ n)
    (hstep : 1 / 100000 < (e - s) / ((n : ℚ) - 1)) :
    (sweepLevels s e n).Pairwise (· < ·) := by
  unfold sweepLevels linspace
  split_ifs with h1 h2
  · omega
  · omega
  · rw [List.map_map, List.pairwise_map]
    refine (List.pairwise_lt_range n).imp ?_
    intro i j hij
    simp only [Function.comp]
    apply round5_strict
    have hij' : (i : ℚ) + 1 ≤ (j : ℚ) := by exact_mod_cast hij
    have hpos : (0 : ℚ) < (e - s) / ((n : ℚ) - 1) := by
      calc (0 : ℚ) < 1 / 100000 := by norm_num
        _ < (e - s) / ((n : ℚ) - 1) := hstep
    have hd : (e - s) / ((n : ℚ) - 1)
        ≤ ((j : ℚ) - (i : ℚ)) * ((e - s) / ((n : ℚ) - 1)) :=
      le_mul_of_one_le_left hpos.le (by linarith)
    have hgap : 1 / 100000 < ((j : ℚ) - (i : ℚ)) * ((e - s) / ((n : ℚ) - 1)) :=
      lt_of_lt_of_le hstep hd
    rw [mul_div_assoc, mul_div_assoc]
    nlinarith [hgap]

/-- C7 amended: the sweep levels are exactly the `num`-point linspace rounded
at the fifth decimal; they are always nondecreasing, and strictly increasing
when `num = 1` or when the requested spacing exceeds the rounding quantum
`10⁻⁵` — but not in general (see the counterexample). -/
theorem C7_sweep_level_spacing (s e : ℚ) (n : ℕ) (_hs : 0 < s) (hse : s ≤ e)
    (hn : 1 ≤ n) :
    (sweepLevels s e n).length = n ∧
    sweepLevels s e n = (linspace s e n).map round5 ∧
    (sweepLevels s e n).Pairwise (· ≤ ·) ∧
    (n = 1 → (sweepLevels s e n).Pairwise (· < ·)) ∧
    (2 ≤ n → 1 / 100000 < (e - s) / ((n : ℚ) - 1) →
      (sweepLevels s e n).Pairwise (· < ·)) := by
  refine ⟨sweepLevels_length s e n, rfl, sweepLevels_pairwise_le s e n hse, ?_, ?_⟩
  · intro h1
    subst h1
    unfold sweepLevels linspace
    norm_num
  · intro hn2 hstep
    exact sweepLevels_pairwise_lt s e n hn2 hstep

/-- Witness for the amended C7 on a concrete valid configuration. -/
theorem C7_sweep_level_spacing_witness :
    (sweepLevels 1 2 2).length = 2 ∧
    sweepLevels 1 2 2 = (linspace 1 2 2).map round5 ∧
    (sweepLevels 1 2 2).Pairwise (· ≤ ·) ∧
    (2 = 1 → (sweepLevels 1 2 2).Pairwise (· < ·)) ∧
    (2 ≤ 2 → 1 / 100000 < ((2 : ℚ) - 1) / (((2 : ℕ) : ℚ) - 1) →
      (sweepLevels 1 2 2).Pairwise (· < ·)) :=
  C7_sweep_level_spacing 1 2 2 (by norm_num) (by norm_num) (by norm_num)

/-- C7 counterexample: with `start = 1 < stop = 1 + 10⁻⁶` and two steps — a
configuration satisfying the claim's preconditions — both linspace values
round to the same fifth-decimal value, so the returned levels `[1, 1]` are
not strictly increasing. -/
theorem C7_counterexample :
    sweepLevels 1 (1 + 1/1000000) 2 = [1, 1] ∧
    ¬ (sweepLevels 1 (1 + 1/1000000) 2).Pairwise (· < ·) := by
  have h : sweepLevels 1 (1 + 1/1000000) 2 = [1, 1] := by
    norm_num [sweepLevels, linspace, round5, roundHalfEven, List.range_succ]
  refine ⟨h, ?_⟩
  rw [h]
  simp [List.pairwise_cons]

/-- Embedding of `np.fft.fft(waveform_volts)` at bin `k`: the forward discrete
Fourier transform `Σⱼ wⱼ · exp(−2πi·k·j/n)` of the real-valued waveform. -/
noncomputable def dftAt (w : List ℝ) (k : ℕ) : ℂ :=
  ∑ j in Finset.range w.length,
    (w.getD j 0 : ℂ) *
      Complex.exp (-2 * (Real.pi : ℂ) * Complex.I * (k : ℂ) * (j : ℂ) / (w.length : ℂ))

/-- Length of the retained non-negative-frequency half-spectrum,
`len(fft[:len(fft) // 2])`. -/
def halfLen (w : List ℝ) : ℕ := w.length / 2

/-- Embedding of `fft_magnitude[k]`: the DFT magnitude at bin `k` divided by
the retained length (`np.abs(fft[:n//2]) / len(fft[:n//2])`). -/
noncomputable def magAt (w : List ℝ) (k : ℕ) : ℝ :=
  Complex.abs (dftAt w k) / (halfLen w : ℝ)

/-- Embedding of `np.fft.fftfreq(len(w), 1/fs)[k]` for a retained bin
`k < n//2`: the bin frequency `k·fs/n`. -/
noncomputable def binFreq (w : List ℝ) (fs : ℝ) (k : ℕ) : ℝ :=
  (k : ℝ) * fs / (w.length : ℝ)

open Classical in
/-- First index among `0..m` minimising `f` (the behaviour of `np.argmin`:
ties keep the earliest index). -/
noncomputable def argminUpTo (f : ℕ → ℝ) : ℕ → ℕ
  | 0 => 0
  | m + 1 =>
      if f (argminUpTo f m) ≤ f (m + 1) then argminUpTo f m else m + 1

/-- Embedding of `np.argmin(np.abs(fft_freq - target))`: the first retained
bin whose frequency is nearest the target. -/
noncomputable def nearestBin (w : List ℝ) (fs target : ℝ) : ℕ :=
  argminUpTo (fun k => |binFreq w fs k - target|) (halfLen w - 1)

/-- Embedding of `LinearityMeasurement.calculate_second_order_product`:
nearest-bin powers at `f1 + f2` and `|f1 - f2|` over the normalised
half-spectrum, returning `10·log10(max(power_sum, power_diff))`.  When the
retained half-spectrum is empty (waveform shorter than 2 samples) the source's
`np.argmin` raises `ValueError`; the embedding returns `none` there. -/
noncomputable def calculate_second_order_product
    (w : List ℝ) (freq1 freq2 fs : ℝ) : Option ℝ :=
  if halfLen w = 0 then none
  else
    some (10 * Real.logb 10
      (max (magAt w (nearestBin w fs (freq1 + freq2)) ^ 2)
           (magAt w (nearestBin w fs |freq1 - freq2|) ^ 2)))

/-- The scanned argmin index stays in range. -/
lemma argminUpTo_le_self (f : ℕ → ℝ) : ∀ m : ℕ, argminUpTo f m ≤ m
  | 0 => le_refl 0
  | m + 1 => by
      unfold argminUpTo
      split_ifs
      · exact le_trans (argminUpTo_le_self f m) (by omega)
      · exact le_refl _

/-- The scanned argmin index minimises `f` over `0..m`. -/
lemma argminUpTo_min (f : ℕ → ℝ) : ∀ (m j : ℕ), j ≤ m → f (argminUpTo f m) ≤ f j
  | 0, j, hj => by
      have hj0 : j = 0 := Nat.le_zero.mp hj
      subst hj0
      exact le_refl _
  | m + 1, j, hj => by
      unfold argminUpTo
      split_ifs with h
      · rcases Nat.lt_succ_iff_lt_or_eq.mp (Nat.lt_succ_of_le hj) with hl | he
        · exact argminUpTo_min f m j (by omega)
        · subst he
          exact h
      · rcases Nat.lt_succ_iff_lt_or_eq.mp (Nat.lt_succ_of_le hj) with hl | he
        · exact le_trans (not_le.mp h).le (argminUpTo_min f m j (by omega))
        · subst he
          exact le_refl _

/-- C6: swapping the two tone arguments leaves the extracted second-order
product power unchanged, for every waveform, sample rate and tone pair: the
extraction depends on the tones only through `f1 + f2` and `|f1 − f2|`. -/
theorem C6_tone_swap_symmetry (w : List ℝ) (f1 f2 fs : ℝ) :
    calculate_second_order_product w f1 f2 fs
      = calculate_second_order_product w f2 f1 fs := by
  unfold calculate_second_order_product
  rw [add_comm f1 f2, abs_sub_comm f1 f2]

/-- C10: a waveform of one sample satisfies the spec's non-empty precondition,
but the retained half-spectrum has length `1 / 2 = 0`, so the nearest-bin
lookup has no bin to select (`np.argmin` of an empty array raises) and the
extractor yields no value; a waveform of at least 2 samples always yields
one.  The extractor therefore actually requires length ≥ 2. -/
theorem C10_length_one_waveform_fails :
    (∀ (x f1 f2 fs : ℝ), halfLen [x] = 0 ∧
      calculate_second_order_product [x] f1 f2 fs = none) ∧
    (∀ (w : List ℝ) (f1 f2 fs : ℝ), 2 ≤ w.length →
      (calculate_second_order_product w f1 f2 fs).isSome = true) := by
  constructor
  · intro x f1 f2 fs
    refine ⟨by simp [halfLen], ?_⟩
    simp [calculate_second_order_product, halfLen]
  · intro w f1 f2 fs h2
    have hh : halfLen w ≠ 0 := by
      unfold halfLen
      omega
    simp [calculate_second_order_product, hh]

/-- Witness for C10 at concrete inputs: the two-sample waveform succeeds. -/
theorem C10_length_one_waveform_fails_witness :
    (calculate_second_order_product [(1 : ℝ), 0] 1 2 10).isSome = true :=
  C10_length_one_waveform_fails.2 [1, 0] 1 2 10 (by simp)

/-- C4 counterexample: the claim quantifies over every non-empty waveform,
but on the one-sample waveform `[1]` the extractor has no retained bin and
produces no value at all, so it cannot equal `some (10·log10(…))` there. -/
theorem C4_counterexample :
    calculate_second_order_product [(1 : ℝ)] 1 2 10 = none := by
  simp [calculate_second_order_product, halfLen]

/-- C4 amended (waveform length ≥ 2 instead of non-empty): the extractor
returns exactly `10·log10(max(power_sum, power_diff))` where the two powers
are squared normalised DFT magnitudes at retained bins, and each selected bin
minimises the absolute distance between its frequency and the target
(`f1 + f2`, resp. `|f1 − f2|`) over all retained bins — a nearest-bin lookup
with no interpolation. -/
theorem C4_nearest_bin_extraction (w : List ℝ) (f1 f2 fs : ℝ)
    (hlen : 2 ≤ w.length) (_hfs : 0 < fs) (_hf1 : 0 < f1) (_hf2 : 0 < f2) :
    nearestBin w fs (f1 + f2) < halfLen w ∧
    nearestBin w fs |f1 - f2| < halfLen w ∧
    (∀ j < halfLen w,
      |binFreq w fs (nearestBin w fs (f1 + f2)) - (f1 + f2)|
        ≤ |binFreq w fs j - (f1 + f2)|) ∧
    (∀ j < halfLen w,
      abs (binFreq w fs (nearestBin w fs |f1 - f2|) - |f1 - f2|)
        ≤ abs (binFreq w fs j - |f1 - f2|)) ∧
    calculate_second_order_product w f1 f2 fs
      = some (10 * Real.logb 10
          (max (magAt w (nearestBin w fs (f1 + f2)) ^ 2)
               (magAt w (nearestBin w fs |f1 - f2|) ^ 2))) := by
  have hh : 1 ≤ halfLen w := by
    unfold halfLen
    omega
  have hin1 : nearestBin w fs (f1 + f2) < halfLen w := by
    have := argminUpTo_le_self (fun k => |binFreq w fs k - (f1 + f2)|) (halfLen w - 1)
    unfold nearestBin
    omega
  have hin2 : nearestBin w fs |f1 - f2| < halfLen w := by
    have := argminUpTo_le_self (fun k => abs (binFreq w fs k - |f1 - f2|)) (halfLen w - 1)
    unfold nearestBin
    omega
  refine ⟨hin1, hin2, ?_, ?_, ?_⟩
  · intro j hj
    exact argminUpTo_min (fun k => |binFreq w fs k - (f1 + f2)|)
      (halfLen w - 1) j (by omega)
  · intro j hj
    exact argminUpTo_min (fun k => abs (binFreq w fs k - |f1 - f2|))
      (halfLen w - 1) j (by omega)
  · unfold calculate_second_order_product
    rw [if_neg (by omega)]

/-- Witness for the amended C4 at a concrete input, keeping only the
binder-free conjuncts. -/
theorem C4_nearest_bin_extraction_witness :
    nearestBin [(1 : ℝ), 0] 10 (1 + 2) < halfLen [(1 : ℝ), 0] ∧
    calculate_second_order_product [(1 : ℝ), 0] 1 2 10
      = some (10 * Real.logb 10
          (max (magAt [(1 : ℝ), 0] (nearestBin [(1 : ℝ), 0] 10 (1 + 2)) ^ 2)
               (magAt [(1 : ℝ), 0] (nearestBin [(1 : ℝ), 0] 10 |1 - 2|) ^ 2))) := by
  have h := C4_nearest_bin_extraction [(1 : ℝ), 0] 1 2 10 (by simp)
    (by norm_num) (by norm_num) (by norm_num)
  exact ⟨h.1, h.2.2.2.2⟩

/-- A failure raised while querying or parsing the waveform inside
`Oscilloscope.get_waveform_data` (a pyvisa timeout, or `float(...)` failing on
the returned text). -/
inductive CaptureErr
  | queryFailed
  deriving DecidableEq

/-- The Python exception that escapes `measure_iip2`: either the capture
raised, or the extractor raised (`np.argmin` over an empty half-spectrum). -/
inductive SweepErr
  | captureFailed
  | extractFailed
  deriving DecidableEq

/-- Observable actions of one `measure_iip2` run: instrument commands written
to the signal generator (`sg…`) and oscilloscope (`osc…`), and lines printed
to stdout (`print…`). -/
inductive Ev
  | sgSetWaveform (frequency amplitude offset : ℚ)
  | sgEnableOutput
  | sgDisableOutput
  | oscSetTimebase (scale : ℚ)
  | oscSetChannelScale (channel : ℕ) (scale : ℚ)
  | oscSetTriggerSource (channel : ℕ)
  | oscSetTriggerLevel (level : ℚ)
  | printLevel (v : ℚ)
  | oscRun
  | oscStop
  | oscSetSourceChannel (channel : ℕ)
  | oscSetWavModeNormal
  | oscSetWavFormatAscii
  | oscSetWavStart (point : ℕ)
  | oscSetWavStop (point : ℚ)
  | oscQueryWavData
  | oscQueryOPC
  | printIIP2 (v : ℝ)

/-- Commands of one sweep step before the waveform query: `set_waveform`,
`enable_output`, `set_oscilloscope` (timebase `2/freq`, channel-1 scale
`amp*20`, trigger source 1, trigger level 0), `print(voltage)`, `osc.run()`. -/
def stepPreEvs (freq1 v : ℚ) : List Ev :=
  [Ev.sgSetWaveform freq1 v 0, Ev.sgEnableOutput,
   Ev.oscSetTimebase (2 / freq1), Ev.oscSetChannelScale 1 (v * 20),
   Ev.oscSetTriggerSource 1, Ev.oscSetTriggerLevel 0,
   Ev.printLevel v, Ev.oscRun]

/-- Commands issued inside `Oscilloscope.get_waveform_data(channel=1)` up to
and including the data query and `*OPC?`; a capture failure surfaces at the
query/parse, after these commands are already written. -/
def captureEvs : List Ev :=
  [Ev.oscStop, Ev.oscSetSourceChannel 1, Ev.oscSetWavModeNormal,
   Ev.oscSetWavFormatAscii, Ev.oscSetWavStart 1, Ev.oscSetWavStop 1200,
   Ev.oscQueryWavData, Ev.oscQueryOPC]

/-- The sweep loop of `measure_iip2` over the remaining levels, starting at
step index `i`.  `cap i` is the waveform returned by
`Oscilloscope.get_waveform_data` at step `i` (or the exception it raised).
As in the source — whose loop body has no `try`/`except` — a capture or
extraction failure aborts the remaining steps and propagates. -/
noncomputable def sweepSteps (freq1 freq2 fs : ℚ)
    (cap : ℕ → Except CaptureErr (List ℚ)) :
    ℕ → List ℚ → List Ev × Except SweepErr (List ℝ)
  | _, [] => ([], Except.ok [])
  | i, v :: rest =>
    let pre := stepPreEvs freq1 v ++ captureEvs
    match cap i with
    | Except.error _ => (pre, Except.error SweepErr.captureFailed)
    | Except.ok wave =>
      match calculate_second_order_product (wave.map (fun (q : ℚ) => (q : ℝ)))
          (freq1 : ℝ) (freq2 : ℝ) (fs : ℝ) with
      | none => (pre, Except.error SweepErr.extractFailed)
      | some p =>
        let next := sweepSteps freq1 freq2 fs cap (i + 1) rest
        (pre ++ [Ev.oscStop] ++ next.1, next.2.map (fun ps => p :: ps))

/-- Embedding of `LinearityMeasurement.measure_iip2`: sweep the rounded
levels; after a fully successful loop call `sg.disable_output()`, then, when
more than one product was collected, compute the intercept and print it —
the returned value is always just `(input_voltages, second_order_products)`.
On a step failure the exception propagates with no disable. -/
noncomputable def measure_iip2 (start_voltage stop_voltage : ℚ) (num : ℕ)
    (freq1 freq2 fs : ℚ) (cap : ℕ → Except CaptureErr (List ℚ)) :
    List Ev × Except SweepErr (List ℚ × List ℝ) :=
  let input_voltages := sweepLevels start_voltage stop_voltage num
  let res := sweepSteps freq1 freq2 fs cap 0 input_voltages
  match res.2 with
  | Except.error e => (res.1, Except.error e)
  | Except.ok prods =>
      (res.1 ++ [Ev.sgDisableOutput]
        ++ (if 1 < prods.length then
              [Ev.printIIP2 (calculate_intercept
                (input_voltages.map (fun (q : ℚ) => (q : ℝ))) prods)]
            else []),
       Except.ok (input_voltages, prods))

/-- Is this event the `OUTP1 OFF` command of `SignalGenerator.disable_output`? -/
def Ev.isDisable : Ev → Bool
  | Ev.sgDisableOutput => true
  | _ => false

/-- Is this event the `OUTP1 ON` command of `SignalGenerator.enable_output`? -/
def Ev.isEnable : Ev → Bool
  | Ev.sgEnableOutput => true
  | _ => false

/-- Is this event the printed IIP2 line? -/
def Ev.isPrintIIP2 : Ev → Bool
  | Ev.printIIP2 _ => true
  | _ => false

/-- Number of `disable_output` commands in a trace. -/
def countDisable (evs : List Ev) : ℕ := evs.countP (fun e => e.isDisable)

/-- Number of printed IIP2 lines in a trace. -/
def countPrintIIP2 (evs : List Ev) : ℕ := evs.countP (fun e => e.isPrintIIP2)

/-- Source-port output state after one event. -/
def outputAfter (s : Bool) (e : Ev) : Bool :=
  if e.isDisable then false else if e.isEnable then true else s

/-- Source-port output state after a trace, starting from state `s`. -/
def finalOutputOn (evs : List Ev) (s : Bool) : Bool := evs.foldl outputAfter s

/-- The trace of one sweep step is either the pre-capture commands plus the
capture commands (when the step raised), or those followed by the final
`osc.stop()` and the traces of the remaining steps. -/
lemma sweepSteps_trace_shape (f1 f2 fs : ℚ)
    (cap : ℕ → Except CaptureErr (List ℚ)) (i : ℕ) (v : ℚ) (rest : List ℚ) :
    (sweepSteps f1 f2 fs cap i (v :: rest)).1
        = stepPreEvs f1 v ++ captureEvs ∨
    (sweepSteps f1 f2 fs cap i (v :: rest)).1
        = stepPreEvs f1 v ++ captureEvs ++ [Ev.oscStop]
          ++ (sweepSteps f1 f2 fs cap (i + 1) rest).1 := by
  rcases hc : cap i with e | w
  · left
    simp [sweepSteps, hc, stepPreEvs, captureEvs]
  · rcases hp : calculate_second_order_product (w.map (fun (q : ℚ) => (q : ℝ)))
        (f1 : ℝ) (f2 : ℝ) (fs : ℝ) with _ | p
    · left
      simp [sweepSteps, hc, hp, stepPreEvs, captureEvs]
    · right
      simp [sweepSteps, hc, hp, stepPreEvs, captureEvs]

/-- Appending traces adds the `disable_output` counts. -/
lemma countDisable_append (l1 l2 : List Ev) :
    countDisable (l1 ++ l2) = countDisable l1 + countDisable l2 := by
  simp [countDisable]

/-- The pre-capture commands contain no `disable_output`. -/
lemma countDisable_stepPreEvs (f1 v : ℚ) : countDisable (stepPreEvs f1 v) = 0 := rfl

/-- The capture commands contain no `disable_output`. -/
lemma countDisable_captureEvs : countDisable captureEvs = 0 := rfl

/-- The per-step command trace contains no `disable_output` command. -/
lemma sweepSteps_countDisable (f1 f2 fs : ℚ)
    (cap : ℕ → Except CaptureErr (List ℚ)) :
    ∀ (vs : List ℚ) (i : ℕ), countDisable (sweepSteps f1 f2 fs cap i vs).1 = 0
  | [], _ => rfl
  | v :: rest, i => by
      have ih := sweepSteps_countDisable f1 f2 fs cap rest (i + 1)
      rcases sweepSteps_trace_shape f1 f2 fs cap i v rest with hsh | hsh
      · rw [hsh, countDisable_append, countDisable_stepPreEvs,
          countDisable_captureEvs]
      · rw [hsh, countDisable_append, countDisable_append, countDisable_append,
          countDisable_stepPreEvs, countDisable_captureEvs, ih]
        rfl

/-- On an aborted sweep the trace is exactly the per-step trace. -/
lemma measure_iip2_error_trace (s e : ℚ) (n : ℕ) (f1 f2 fs : ℚ)
    (cap : ℕ → Except CaptureErr (List ℚ)) (err : SweepErr)
    (h : (measure_iip2 s e n f1 f2 fs cap).2 = Except.error err) :
    (measure_iip2 s e n f1 f2 fs cap).1
      = (sweepSteps f1 f2 fs cap 0 (sweepLevels s e n)).1 := by
  rcases hres : (sweepSteps f1 f2 fs cap 0 (sweepLevels s e n)).2 with e' | prods
  · simp [measure_iip2, hres]
  · simp [measure_iip2, hres] at h

/-- On a completed sweep: the returned levels are the rounded linspace, the
result is the per-step product list, and the trace is the per-step trace
followed by `disable_output` and — when more than one product was collected —
the printed intercept line. -/
lemma measure_iip2_ok_trace (s e : ℚ) (n : ℕ) (f1 f2 fs : ℚ)
    (cap : ℕ → Except CaptureErr (List ℚ)) (L : List ℚ) (P : List ℝ)
    (h : (measure_iip2 s e n f1 f2 fs cap).2 = Except.ok (L, P)) :
    L = sweepLevels s e n ∧
    (sweepSteps f1 f2 fs cap 0 (sweepLevels s e n)).2 = Except.ok P ∧
    (measure_iip2 s e n f1 f2 fs cap).1
      = (sweepSteps f1 f2 fs cap 0 (sweepLevels s e n)).1
        ++ [Ev.sgDisableOutput]
        ++ (if 1 < P.length then
              [Ev.printIIP2 (calculate_intercept
                (L.map (fun (q : ℚ) => (q : ℝ))) P)]
            else []) := by
  rcases hres : (sweepSteps f1 f2 fs cap 0 (sweepLevels s e n)).2 with e' | prods
  · simp [measure_iip2, hres] at h
  · simp only [measure_iip2, hres] at h ⊢
    obtain ⟨hL, hP⟩ := Prod.mk.injEq .. ▸ (Except.ok.injEq .. ▸ h)
    subst hL
    subst hP
    simp

/-- Output state threads through appended traces. -/
lemma finalOutputOn_append (l1 l2 : List Ev) (s : Bool) :
    finalOutputOn (l1 ++ l2) s = finalOutputOn l2 (finalOutputOn l1 s) := by
  simp [finalOutputOn, List.foldl_append]

/-- A capture oracle that always raises (the instrument never returns a
usable waveform). -/
def capFailAll : ℕ → Except CaptureErr (List ℚ) :=
  fun _ => Except.error CaptureErr.queryFailed

/-- C1 amended: `disable_output` is executed exactly on normal completion of
every step — a completed sweep's trace contains the disable command (once)
and leaves the output off — while a sweep aborted by a capture/extract
exception unwinds with no `disable_output` in its trace at all (there is no
`try`/`finally` in the source). -/
theorem C1_disable_only_on_success (s e : ℚ) (n : ℕ) (f1 f2 fs : ℚ)
    (cap : ℕ → Except CaptureErr (List ℚ)) :
    (∀ L P, (measure_iip2 s e n f1 f2 fs cap).2 = Except.ok (L, P) →
      countDisable (measure_iip2 s e n f1 f2 fs cap).1 = 1 ∧
      finalOutputOn (measure_iip2 s e n f1 f2 fs cap).1 false = false) ∧
    (∀ err, (measure_iip2 s e n f1 f2 fs cap).2 = Except.error err →
      countDisable (measure_iip2 s e n f1 f2 fs cap).1 = 0) := by
  constructor
  · intro L P hok
    obtain ⟨hL, hres, htr⟩ := measure_iip2_ok_trace s e n f1 f2 fs cap L P hok
    constructor
    · rw [htr, countDisable_append, countDisable_append,
        sweepSteps_countDisable]
      by_cases h1 : 1 < P.length
      · rw [if_pos h1]
        rfl
      · rw [if_neg h1]
        rfl
    · rw [htr, finalOutputOn_append, finalOutputOn_append]
      have hmid : ∀ b : Bool, finalOutputOn [Ev.sgDisableOutput] b = false :=
        fun b => rfl
      rw [hmid]
      by_cases h1 : 1 < P.length
      · rw [if_pos h1]
        rfl
      · rw [if_neg h1]
        rfl
  · intro err herr
    rw [measure_iip2_error_trace s e n f1 f2 fs cap err herr,
      sweepSteps_countDisable]

/-- Witness for the amended C1: a zero-step sweep completes normally and its
trace is exactly one `disable_output`, leaving the output off. -/
theorem C1_disable_only_on_success_witness :
    countDisable (measure_iip2 1 1 0 1 2 1 capFailAll).1 = 1 ∧
    finalOutputOn (measure_iip2 1 1 0 1 2 1 capFailAll).1 false = false :=
  (C1_disable_only_on_success 1 1 0 1 2 1 capFailAll).1 [] []
    (by simp [measure_iip2, sweepLevels, linspace, sweepSteps])

/-- C1 counterexample: a one-step sweep whose capture raises unwinds as an
exception, with no `disable_output` anywhere in its command trace, and the
Source Port output is still on (the step had enabled it). -/
theorem C1_counterexample :
    (measure_iip2 1 1 1 1 2 1 capFailAll).2
      = Except.error SweepErr.captureFailed ∧
    countDisable (measure_iip2 1 1 1 1 2 1 capFailAll).1 = 0 ∧
    finalOutputOn (measure_iip2 1 1 1 1 2 1 capFailAll).1 false = true := by
  have hv : sweepLevels 1 1 1 = [round5 1] := by
    simp [sweepLevels, linspace]
  have hstep : sweepSteps 1 2 1 capFailAll 0 [round5 1]
      = (stepPreEvs 1 (round5 1) ++ captureEvs,
         Except.error SweepErr.captureFailed) := by
    simp [sweepSteps, capFailAll]
  have hm : measure_iip2 1 1 1 1 2 1 capFailAll
      = (stepPreEvs 1 (round5 1) ++ captureEvs,
         Except.error SweepErr.captureFailed) := by
    simp [measure_iip2, hv, hstep]
  refine ⟨by rw [hm], ?_, ?_⟩
  · rw [hm]
    rfl
  · rw [hm]
    rfl

/-- C8 amended: `measure_iip2` performs no parameter validation and no
`ConfigurationError` exists anywhere in the repository.  A zero-step sweep —
invalid per the claim — does not fail fast: it returns normally with empty
results, and still writes one instrument command (`disable_output`). -/
theorem C8_no_parameter_validation (s e f1 f2 fs : ℚ)
    (cap : ℕ → Except CaptureErr (List ℚ)) :
    measure_iip2 s e 0 f1 f2 fs cap
      = ([Ev.sgDisableOutput], Except.ok ([], [])) := by
  simp [measure_iip2, sweepLevels, linspace, sweepSteps]

/-- C8 counterexample: called with zero steps (invalid parameters per the
claim), the sweep raises nothing — it returns `ok` with empty results — and
an instrument command is still issued, contradicting "fails fast with a
ConfigurationError before any instrument interaction". -/
theorem C8_counterexample :
    measure_iip2 1 2 0 1 2 1 capFailAll
      = ([Ev.sgDisableOutput], Except.ok ([], [])) := by
  simp [measure_iip2, sweepLevels, linspace, sweepSteps]


/-- Did the computation finish without a raised exception? -/
def exceptIsOk {ε α : Type} : Except ε α → Bool
  | Except.ok _ => true
  | Except.error _ => false

/-- A normal result is ok. -/
@[simp] lemma exceptIsOk_ok {ε α : Type} (a : α) :
    exceptIsOk (Except.ok a : Except ε α) = true := rfl

/-- A raised exception is not ok. -/
@[simp] lemma exceptIsOk_error {ε α : Type} (e : ε) :
    exceptIsOk (Except.error e : Except ε α) = false := rfl

/-- Mapping over a normal result maps the value. -/
@[simp] lemma exceptMap_ok {ε α β : Type} (f : α → β) (a : α) :
    Except.map f (Except.ok a : Except ε α) = Except.ok (f a) := rfl

/-- Mapping over a raised exception keeps the exception. -/
@[simp] lemma exceptMap_error {ε α β : Type} (f : α → β) (e : ε) :
    Except.map f (Except.error e : Except ε α) = Except.error e := rfl

/-- Step `i` succeeds: `get_waveform_data` returns a waveform and the
extractor produces a power for it. -/
def stepOk (f1 f2 fs : ℚ) (cap : ℕ → Except CaptureErr (List ℚ)) (i : ℕ) : Prop :=
  ∃ w p, cap i = Except.ok w ∧
    calculate_second_order_product (w.map (fun (q : ℚ) => (q : ℝ)))
      (f1 : ℝ) (f2 : ℝ) (fs : ℝ) = some p

/-- The sweep loop succeeds exactly when every remaining step succeeds, and a
successful run returns one product per level. -/
lemma sweepSteps_ok_iff (f1 f2 fs : ℚ)
    (cap : ℕ → Except CaptureErr (List ℚ)) :
    ∀ (vs : List ℚ) (i : ℕ),
      (exceptIsOk (sweepSteps f1 f2 fs cap i vs).2 = true ↔
        ∀ j < vs.length, stepOk f1 f2 fs cap (i + j)) ∧
      (∀ P, (sweepSteps f1 f2 fs cap i vs).2 = Except.ok P →
        P.length = vs.length)
  | [], i => by
      refine ⟨by simp [sweepSteps], fun P hP => ?_⟩
      simp only [sweepSteps] at hP
      cases hP
      rfl
  | v :: rest, i => by
      have ih := sweepSteps_ok_iff f1 f2 fs cap rest (i + 1)
      rcases hc : cap i with e | w
      · have hres : (sweepSteps f1 f2 fs cap i (v :: rest)).2
            = Except.error SweepErr.captureFailed := by
          simp [sweepSteps, hc]
        refine ⟨⟨fun hfalse => ?_, fun hall => ?_⟩, fun P hP => ?_⟩
        · rw [hres] at hfalse
          simp at hfalse
        · obtain ⟨w', p, hw', _⟩ := hall 0 (by simp)
          rw [Nat.add_zero, hc] at hw'
          cases hw'
        · rw [hres] at hP
          cases hP
      · rcases hp : calculate_second_order_product (w.map (fun (q : ℚ) => (q : ℝ)))
            (f1 : ℝ) (f2 : ℝ) (fs : ℝ) with _ | p
        · have hres : (sweepSteps f1 f2 fs cap i (v :: rest)).2
              = Except.error SweepErr.extractFailed := by
            simp [sweepSteps, hc, hp]
          refine ⟨⟨fun hfalse => ?_, fun hall => ?_⟩, fun P hP => ?_⟩
          · rw [hres] at hfalse
            simp at hfalse
          · obtain ⟨w', p', hw', hp'⟩ := hall 0 (by simp)
            rw [Nat.add_zero, hc] at hw'
            cases hw'
            rw [hp] at hp'
            cases hp'
          · rw [hres] at hP
            cases hP
        · have hmain : (sweepSteps f1 f2 fs cap i (v :: rest)).2
              = (sweepSteps f1 f2 fs cap (i + 1) rest).2.map (fun ps => p :: ps) := by
            simp [sweepSteps, hc, hp]
          refine ⟨?_, ?_⟩
          · rw [hmain]
            rcases hr : (sweepSteps f1 f2 fs cap (i + 1) rest).2 with e' | ps
            · constructor
              · intro hfalse
                simp at hfalse
              · intro hall
                have hrest : ∀ j < rest.length, stepOk f1 f2 fs cap (i + 1 + j) := by
                  intro j hj
                  have hone := hall (j + 1) (by simp [Nat.succ_lt_succ hj])
                  have h2 : i + (j + 1) = i + 1 + j := by omega
                  rwa [h2] at hone
                have hok' := ih.1.mpr hrest
                rw [hr] at hok'
                simp at hok'
            · constructor
              · intro _
                have hok' : exceptIsOk (sweepSteps f1 f2 fs cap (i + 1) rest).2
                    = true := by
                  rw [hr]
                  rfl
                have hrest := ih.1.mp hok'
                intro j hj
                rcases j with _ | j'
                · exact ⟨w, p, by rw [Nat.add_zero]; exact hc, hp⟩
                · have h2 : i + (j' + 1) = i + 1 + j' := by omega
                  rw [h2]
                  exact hrest j' (by simpa using hj)
              · intro _
                rfl
          · intro P hP
            rw [hmain] at hP
            rcases hr : (sweepSteps f1 f2 fs cap (i + 1) rest).2 with e' | ps
            · rw [hr] at hP
              simp at hP
            · rw [hr, exceptMap_ok] at hP
              cases hP
              simp [ih.2 ps hr]

/-- The zero-frequency DFT bin of a two-sample waveform is the sample sum. -/
lemma dftAt_pair_zero (a b : ℝ) : dftAt [a, b] 0 = (a : ℂ) + (b : ℂ) := by
  unfold dftAt
  simp [Finset.sum_range_succ, Complex.exp_zero]

/-- A two-sample waveform has a single retained bin, so both nearest-bin
lookups select bin 0. -/
lemma nearestBin_pair (a b fs t : ℝ) : nearestBin [a, b] fs t = 0 := by
  have h0 : halfLen [a, b] - 1 = 0 := by simp [halfLen]
  unfold nearestBin
  rw [h0]
  rfl

/-- Extraction on a two-sample waveform: the single retained bin holds the
sample sum, so the result is `10·log10(|a+b|²)` for any tones. -/
lemma calcSOP_pair (a b f1 f2 fs : ℝ) :
    calculate_second_order_product [a, b] f1 f2 fs
      = some (10 * Real.logb 10 (Complex.abs ((a : ℂ) + (b : ℂ)) ^ 2)) := by
  unfold calculate_second_order_product
  rw [if_neg (by simp [halfLen])]
  rw [nearestBin_pair, nearestBin_pair, max_self]
  have hmag : magAt [a, b] 0 = Complex.abs ((a : ℂ) + (b : ℂ)) := by
    unfold magAt
    rw [dftAt_pair_zero]
    simp [halfLen]
  rw [hmag]

/-- C2 amended: the sweep has no partial-failure tolerance.  It completes
(with exactly `num` products) precisely when every step's capture and
extraction succeed; a capture/extract failure on any step makes
`measure_iip2` raise, returning no sweep points at all. -/
theorem C2_step_failure_aborts (s e : ℚ) (n : ℕ) (f1 f2 fs : ℚ)
    (cap : ℕ → Except CaptureErr (List ℚ)) :
    (exceptIsOk (measure_iip2 s e n f1 f2 fs cap).2 = true ↔
      ∀ j < n, stepOk f1 f2 fs cap j) ∧
    (∀ L P, (measure_iip2 s e n f1 f2 fs cap).2 = Except.ok (L, P) →
      L = sweepLevels s e n ∧ P.length = n) := by
  have hlen := sweepLevels_length s e n
  have hmain := sweepSteps_ok_iff f1 f2 fs cap (sweepLevels s e n) 0
  constructor
  · have hiff : exceptIsOk (measure_iip2 s e n f1 f2 fs cap).2
        = exceptIsOk (sweepSteps f1 f2 fs cap 0 (sweepLevels s e n)).2 := by
      rcases hres : (sweepSteps f1 f2 fs cap 0 (sweepLevels s e n)).2 with e' | prods
      · simp [measure_iip2, hres]
      · simp [measure_iip2, hres]
    rw [hiff]
    constructor
    · intro h
      intro j hj
      have h2 := hmain.1.mp h j (by rw [hlen]; exact hj)
      rwa [Nat.zero_add] at h2
    · intro h
      apply hmain.1.mpr
      intro j hj
      rw [hlen] at hj
      rw [Nat.zero_add]
      exact h j hj
  · intro L P hok
    obtain ⟨hL, hres, _⟩ := measure_iip2_ok_trace s e n f1 f2 fs cap L P hok
    exact ⟨hL, by rw [hmain.2 P hres, hlen]⟩

/-- Witness for the amended C2 at a concrete input (zero-step sweep). -/
theorem C2_step_failure_aborts_witness :
    ([] : List ℚ) = sweepLevels 1 2 0 ∧ ([] : List ℝ).length = 0 :=
  (C2_step_failure_aborts 1 2 0 1 2 1 capFailAll).2 [] []
    (by simp [measure_iip2, sweepLevels, linspace, sweepSteps])

/-- A capture oracle whose step 0 succeeds and whose step 1 raises. -/
def capC2 : ℕ → Except CaptureErr (List ℚ) :=
  fun i => if i = 0 then Except.ok [5, 5] else Except.error CaptureErr.queryFailed

/-- C2 counterexample: a two-step sweep in which only step 1's capture fails
does not return 2 sweep points with one absent power — it raises, returning
nothing: the exception from `get_waveform_data` propagates straight out of
the loop. -/
theorem C2_counterexample :
    (measure_iip2 1 2 2 1 2 1 capC2).2 = Except.error SweepErr.captureFailed := by
  obtain ⟨a, b, hab⟩ := List.length_eq_two.mp (sweepLevels_length 1 2 2)
  have hstep1 : (sweepSteps 1 2 1 capC2 1 [b]).2
      = Except.error SweepErr.captureFailed := by
    simp [sweepSteps, capC2]
  have hcalc := calcSOP_pair (5 : ℝ) (5 : ℝ) (1 : ℝ) (2 : ℝ) (1 : ℝ)
  have hstep0 : (sweepSteps 1 2 1 capC2 0 [a, b]).2
      = Except.error SweepErr.captureFailed := by
    simp [sweepSteps, capC2, hcalc, hstep1]
  simp [measure_iip2, hab, hstep0]

/-- Ten times a base-10 logarithm of a power of ten. -/
lemma logb_ten_pow_mul (k : ℕ) :
    (10 : ℝ) * Real.logb 10 ((10 : ℝ) ^ k) = 10 * k := by
  rw [Real.logb_pow, Real.logb_self_eq_one (by norm_num)]
  ring

/-- Appending traces adds the printed-IIP2 counts. -/
lemma countPrintIIP2_append (l1 l2 : List Ev) :
    countPrintIIP2 (l1 ++ l2) = countPrintIIP2 l1 + countPrintIIP2 l2 := by
  simp [countPrintIIP2]

/-- The pre-capture commands print no IIP2 line. -/
lemma countPrintIIP2_stepPreEvs (f1 v : ℚ) :
    countPrintIIP2 (stepPreEvs f1 v) = 0 := rfl

/-- The capture commands print no IIP2 line. -/
lemma countPrintIIP2_captureEvs : countPrintIIP2 captureEvs = 0 := rfl

/-- The per-step command trace prints no IIP2 line. -/
lemma sweepSteps_countPrintIIP2 (f1 f2 fs : ℚ)
    (cap : ℕ → Except CaptureErr (List ℚ)) :
    ∀ (vs : List ℚ) (i : ℕ), countPrintIIP2 (sweepSteps f1 f2 fs cap i vs).1 = 0
  | [], _ => rfl
  | v :: rest, i => by
      have ih := sweepSteps_countPrintIIP2 f1 f2 fs cap rest (i + 1)
      rcases sweepSteps_trace_shape f1 f2 fs cap i v rest with hsh | hsh
      · rw [hsh, countPrintIIP2_append, countPrintIIP2_stepPreEvs,
          countPrintIIP2_captureEvs]
      · rw [hsh, countPrintIIP2_append, countPrintIIP2_append,
          countPrintIIP2_append, countPrintIIP2_stepPreEvs,
          countPrintIIP2_captureEvs, ih]
        rfl

/-- C9 amended: on a completed sweep the intercept is computed and printed
when more than one product was collected, but the returned value is always
just the pair `(input_voltages, second_order_products)` — the printed line is
the only place the intercept appears. -/
theorem C9_intercept_printed_not_returned (s e : ℚ) (n : ℕ) (f1 f2 fs : ℚ)
    (cap : ℕ → Except CaptureErr (List ℚ)) (L : List ℚ) (P : List ℝ)
    (hok : (measure_iip2 s e n f1 f2 fs cap).2 = Except.ok (L, P)) :
    L = sweepLevels s e n ∧
    (1 < P.length →
      (measure_iip2 s e n f1 f2 fs cap).1
        = (sweepSteps f1 f2 fs cap 0 (sweepLevels s e n)).1
          ++ [Ev.sgDisableOutput,
              Ev.printIIP2 (calculate_intercept
                (L.map (fun (q : ℚ) => (q : ℝ))) P)]) ∧
    (P.length ≤ 1 →
      (measure_iip2 s e n f1 f2 fs cap).1
        = (sweepSteps f1 f2 fs cap 0 (sweepLevels s e n)).1
          ++ [Ev.sgDisableOutput]) := by
  obtain ⟨hL, hres, htr⟩ := measure_iip2_ok_trace s e n f1 f2 fs cap L P hok
  refine ⟨hL, ?_, ?_⟩
  · intro h1
    rw [htr, if_pos h1]
    simp
  · intro h1
    rw [htr, if_neg (by omega)]
    simp

/-- Witness for the amended C9 at a concrete input (zero-step sweep, at most
one product). -/
theorem C9_intercept_printed_not_returned_witness :
    ([] : List ℚ) = sweepLevels 1 1 0 ∧
    (1 < ([] : List ℝ).length →
      (measure_iip2 1 1 0 1 2 1 capFailAll).1
        = (sweepSteps 1 2 1 capFailAll 0 (sweepLevels 1 1 0)).1
          ++ [Ev.sgDisableOutput,
              Ev.printIIP2 (calculate_intercept
                (([] : List ℚ).map (fun (q : ℚ) => (q : ℝ))) ([] : List ℝ))]) ∧
    (([] : List ℝ).length ≤ 1 →
      (measure_iip2 1 1 0 1 2 1 capFailAll).1
        = (sweepSteps 1 2 1 capFailAll 0 (sweepLevels 1 1 0)).1
          ++ [Ev.sgDisableOutput]) :=
  C9_intercept_printed_not_returned 1 1 0 1 2 1 capFailAll [] []
    (by simp [measure_iip2, sweepLevels, linspace, sweepSteps])

/-- A capture oracle returning constant two-sample waveforms: `[5, 5]` at
step 0 and `[50, 50]` afterwards. -/
def capC9 : ℕ → Except CaptureErr (List ℚ) :=
  fun i => if i = 0 then Except.ok [5, 5] else Except.ok [50, 50]

/-- C9 counterexample: a fully successful two-step sweep (levels `[1, 2]`,
products `[20, 40]`).  Both sweep points have a filled product power, and the
intercept estimate over them is `0` — but the returned value is exactly the
pair `([1, 2], [20, 40])`: the intercept `0` appears nowhere in it (it is not
among the returned levels or powers), only in the printed trace line. -/
theorem C9_counterexample :
    (measure_iip2 1 2 2 1 2 1 capC9).2 = Except.ok ([1, 2], [20, 40]) ∧
    calculate_intercept [(1 : ℝ), 2] [20, 40] = 0 ∧
    (0 : ℝ) ∉ ([(1 : ℝ), 2] : List ℝ) ∧
    (0 : ℝ) ∉ ([(20 : ℝ), 40] : List ℝ) ∧
    countPrintIIP2 (measure_iip2 1 2 2 1 2 1 capC9).1 = 1 := by
  have hlev : sweepLevels 1 2 2 = [1, 2] := by
    norm_num [sweepLevels, linspace, round5, roundHalfEven, List.range_succ]
  have hp0 : calculate_second_order_product [(5 : ℝ), 5] 1 2 1 = some 20 := by
    rw [calcSOP_pair]
    have habs : Complex.abs (((5 : ℝ) : ℂ) + ((5 : ℝ) : ℂ)) = 10 := by
      rw [show ((5 : ℝ) : ℂ) + ((5 : ℝ) : ℂ) = (10 : ℂ) from by norm_num]
      exact Complex.abs_ofNat 10
    rw [habs, logb_ten_pow_mul 2]
    norm_num
  have hp1 : calculate_second_order_product [(50 : ℝ), 50] 1 2 1 = some 40 := by
    rw [calcSOP_pair]
    have habs : Complex.abs (((50 : ℝ) : ℂ) + ((50 : ℝ) : ℂ)) = 100 := by
      rw [show ((50 : ℝ) : ℂ) + ((50 : ℝ) : ℂ) = (100 : ℂ) from by norm_num]
      exact Complex.abs_ofNat 100
    rw [habs, show ((100 : ℝ) ^ 2 : ℝ) = (10 : ℝ) ^ (4 : ℕ) from by norm_num,
      logb_ten_pow_mul 4]
    norm_num
  have hstep0 : (sweepSteps 1 2 1 capC9 0 [1, 2]).2 = Except.ok [20, 40] := by
    simp [sweepSteps, capC9, hp0, hp1]
  have hok : (measure_iip2 1 2 2 1 2 1 capC9).2
      = Except.ok ([1, 2], [20, 40]) := by
    simp [measure_iip2, hlev, hstep0]
  obtain ⟨_, _, htr⟩ := measure_iip2_ok_trace 1 2 2 1 2 1 capC9 [1, 2] [20, 40] hok
  refine ⟨hok, ?_, by norm_num, by norm_num, ?_⟩
  · norm_num [calculate_intercept, polyfit1, fitSlopeNum, fitDenom, sumXY, sumSq]
  · rw [htr, if_pos (by norm_num), countPrintIIP2_append, countPrintIIP2_append,
      sweepSteps_countPrintIIP2]
    rfl
